import Mathlib

/-!
Shallow embedding of the core of `pkg/commands/git.go` (the `GitCommand`
methods the claims are about), together with theorems settling the claims.

Conventions of the embedding:
* Go strings are modelled as Lean `String`s; the status lines involved are
  ASCII, so byte indices and character indices coincide.
* Go slice expressions `s[a:b]` panic when out of range; this is modelled by
  `goSlice` returning `Option String`, `none` standing for the runtime panic.
* External collaborators that live outside the analysed file
  (`OSCommand.FileType`, `OSCommand.Unquote`, the outcome of every launched
  subprocess, the git config values read by `usingGpg`) are parameters of the
  embedding, collected in `Env`.
* Functions that launch subprocesses or touch the filesystem return, besides
  their result, the ordered trace of external calls (`Call`) they perform and
  the list of queued continuations they invoke.
-/

namespace LazygitGit

/-- The `File` struct of `pkg/commands` (the spec calls it FileChange), with the
fields used by `pkg/commands/git.go`.  The Go field `Type` is rendered here as
`ftype` because `Type` is reserved in Lean. -/
structure File where
  Name : String
  DisplayString : String
  HasStagedChanges : Bool
  HasUnstagedChanges : Bool
  Tracked : Bool
  Deleted : Bool
  HasMergeConflicts : Bool
  HasInlineMergeConflicts : Bool
  ftype : String
  ShortStatus : String
  deriving DecidableEq, Repr, Inhabited

/-- The `Commit` struct of `pkg/commands`, restricted to the fields
`pkg/commands/git.go` reads (`Sha` and `Name`). -/
structure Commit where
  Sha : String
  Name : String
  deriving DecidableEq, Repr, Inhabited

/-- The error values produced by the embedded functions.  Localized message
lookups (`c.Tr.SLocalize "NoRoom"` etc.) are represented by the corresponding
constructor; `commandFailed cmd` stands for a non-nil error returned by an
external command invocation. -/
inductive GitError where
  | noRoom
  | cannotRebaseOntoFirstCommit
  | cannotSquashOntoSecondCommit
  | disabledForGPG
  | indexOutsideRange
  | unexpectedCmdPointer
  | commandFailed (cmd : String)
  deriving DecidableEq, Repr

/-- An external call performed by the embedded code, in program order.
`run` is `OSCommand.RunCommand`/`RunCommandWithOutput` (a subprocess),
`skipEditor` is `RunSkipEditorCommand` (a subprocess with the editor-skipping
environment), `runPrepared` is `RunPreparedCommand` applied to the command
built by `PrepareInteractiveRebaseCommand`, and `removePath` is
`OSCommand.Remove` (a filesystem operation, not a subprocess). -/
inductive Call where
  | run (cmd : String)
  | skipEditor (cmd : String)
  | runPrepared (baseSha todo : String) (overrideEditor : Bool)
  | removePath (path : String)
  deriving DecidableEq, Repr

/-- Whether a `Call` launches a subprocess (everything except the plain
filesystem removal). -/
def Call.isSubprocess : Call → Bool
  | .removePath _ => false
  | _ => true

/-- The environment of external collaborators: the outcome of each external
call (`true` = the call returned no error) and the values the code reads from
outside the analysed file. -/
structure Env where
  runOk : String → Bool
  skipEditorOk : String → Bool
  runPreparedOk : String → String → Bool
  removeOk : String → Bool
  gpgsignLocal : String
  gpgsignGlobal : String
  fileType : String → String
  unquote : String → String

/-- ASCII lowering of one character. -/
def charToLower (c : Char) : Char :=
  if 'A' ≤ c ∧ c ≤ 'Z' then Char.ofNat (c.toNat + 32) else c

/-- Go's `strings.ToLower` (standard library, outside the repository),
modelled for the ASCII git-config values read here. -/
def stringToLower (s : String) : String := (s.data.map charToLower).asString

/-- `GitCommand.usingGpg`: reads `commit.gpgsign` from the local git config,
falling back to the global one when the local value is empty, and tests the
lower-cased value against the four truthy spellings. -/
def usingGpg (env : Env) : Bool :=
  let gpgsign := if env.gpgsignLocal = "" then env.gpgsignGlobal else env.gpgsignLocal
  let value := stringToLower gpgsign
  value = "true" || value = "1" || value = "yes" || value = "on"

/-- Go slice expression `s[a:b]`: defined (as the substring) when
`a ≤ b ∧ b ≤ s.length`, `none` (a runtime panic) otherwise. -/
def goSlice (s : String) (a b : Nat) : Option String :=
  if a ≤ b ∧ b ≤ s.length then some ((s.toList.drop a).take (b - a)).asString else none

/-- Go slice expression `s[a:]`, i.e. `s[a:len(s)]`. -/
def goSliceFrom (s : String) (a : Nat) : Option String :=
  goSlice s a s.length

/-- The body of the `for` loop of `GitCommand.GetStatusFiles` applied to one
status line.  `none` models the Go panic raised by the slice expressions on a
line shorter than 3 characters.  `OSCommand.FileType` and `OSCommand.Unquote`
live outside the analysed file and are taken from the environment. -/
def parseStatusLine (env : Env) (statusString : String) : Option File :=
  match goSlice statusString 0 2 with
  | none => none
  | some change =>
    match goSlice change 0 1 with
    | none => none
    | some stagedChange =>
      match goSlice statusString 1 2 with
      | none => none
      | some unstagedChange =>
        match goSliceFrom statusString 3 with
        | none => none
        | some rest =>
          let filename := env.unquote rest
          let untracked := change = "??" || change = "A " || change = "AM"
          let hasNoStagedChanges :=
            stagedChange = " " || stagedChange = "U" || stagedChange = "?"
          let hasMergeConflicts := change = "UU" || change = "AA" || change = "DU"
          let hasInlineMergeConflicts := change = "UU" || change = "AA"
          some
            { Name := filename
              DisplayString := statusString
              HasStagedChanges := !hasNoStagedChanges
              HasUnstagedChanges := unstagedChange ≠ " "
              Tracked := !untracked
              Deleted := unstagedChange = "D" || stagedChange = "D"
              HasMergeConflicts := hasMergeConflicts
              HasInlineMergeConflicts := hasInlineMergeConflicts
              ftype := env.fileType filename
              ShortStatus := change }

/-- `GitCommand.GetStatusFiles` on an already-split list of status lines
(`utils.SplitLines` lives outside the analysed file).  The Go loop builds one
`File` per line; a panic in any iteration aborts the whole call (`none`). -/
def GetStatusFiles (env : Env) : List String → Option (List File)
  | [] => some []
  | statusString :: rest =>
    match parseStatusLine env statusString, GetStatusFiles env rest with
    | some file, some files => some (file :: files)
    | _, _ => none

/-- `includesInt` of `pkg/commands/git.go`. -/
def includesInt : List Nat → Nat → Bool
  | [], _ => false
  | b :: rest, a => if b = a then true else includesInt rest a

/-- `GitCommand.MergeStatusFiles`.  The inner Go loop over `newFiles` with
`break` is the first `(newIndex, newFile)` whose name matches, i.e. `find?`
over the indexed list; the first outer loop appends, per matching old file,
the matching new file to `result` and its index to `appendedIndexes`; the
second loop appends the new files whose index was not consumed. -/
def MergeStatusFiles (oldFiles newFiles : List File) : List File :=
  if oldFiles.length = 0 then newFiles
  else
    let matched := oldFiles.filterMap fun oldFile =>
      newFiles.enum.find? fun p => p.2.Name = oldFile.Name
    let appendedIndexes := matched.map Prod.fst
    let result := matched.map Prod.snd
    result ++ newFiles.enum.filterMap fun p =>
      if includesInt appendedIndexes p.1 then none else some p.2

deriving instance DecidableEq for Except

/-- A queued continuation (the Go closure stored in
`GitCommand.onSuccessfulContinue`).  Its side effects are outside the model;
`result` is the error value the closure returns when invoked, `id`
distinguishes continuations. -/
structure Cont where
  id : Nat
  result : Except GitError Unit
  deriving DecidableEq, Repr

/-- The mutable state of `GitCommand` relevant to the rewrite driver: the
zero-or-one pending continuation. -/
structure GitState where
  onSuccessfulContinue : Option Cont
  deriving DecidableEq, Repr

/-- `GitCommand.GenericMerge commandType command`: runs
`git <commandType> --<command>` through `RunSkipEditorCommand`; on error the
error is returned at once (the Go method returns before reaching the
continuation logic).  On success, if the command was a rebase continue and a
continuation is pending, the continuation is cleared and then invoked (its
return value is the method's return value); otherwise an abort clears the
pending continuation.  Returns the new state, the external calls made, the
continuations invoked, and the error result. -/
def GenericMerge (env : Env) (commandType command : String) (s : GitState) :
    GitState × List Call × List Cont × Except GitError Unit :=
  let cmdStr := "git " ++ commandType ++ " --" ++ command
  if !(env.skipEditorOk cmdStr) then
    (s, [.skipEditor cmdStr], [], .error (.commandFailed cmdStr))
  else if h : commandType = "rebase" ∧ command = "continue" ∧ s.onSuccessfulContinue.isSome then
    let f := s.onSuccessfulContinue.get h.2.2
    ({ onSuccessfulContinue := none }, [.skipEditor cmdStr], [f], f.result)
  else if command = "abort" then
    ({ onSuccessfulContinue := none }, [.skipEditor cmdStr], [], .ok ())
  else
    (s, [.skipEditor cmdStr], [], .ok ())

/-- The todo-building loop of `GenerateGenericRebaseTodo`: iterate over the
slice with index, prepending one line per commit (verb `action` at position
`actionIndex`, `pick` elsewhere), so the oldest line of the slice ends up
first in the string. -/
def todoFold (actionIndex : Nat) (action : String) (slice : List Commit) : String :=
  slice.enum.foldl
    (fun todo p =>
      (if p.1 = actionIndex then action else "pick") ++ " " ++ p.2.Sha ++ " " ++ p.2.Name
        ++ "\n" ++ todo)
    ""

/-- `GitCommand.GenerateGenericRebaseTodo`: computes `baseIndex`, rejects when
history is too short (one extra commit is required for squash/fixup), and
otherwise returns the todo string together with `commits[baseIndex].Sha`. -/
def GenerateGenericRebaseTodo (commits : List Commit) (actionIndex : Nat) (action : String) :
    Except GitError (String × String) :=
  let baseIndex := actionIndex + 1
  if commits.length ≤ baseIndex then .error .cannotRebaseOntoFirstCommit
  else if action = "squash" || action = "fixup" then
    let baseIndex := baseIndex + 1
    if commits.length ≤ baseIndex then .error .cannotSquashOntoSecondCommit
    else .ok (todoFold actionIndex action (commits.take baseIndex), (commits.getD baseIndex default).Sha)
  else .ok (todoFold actionIndex action (commits.take baseIndex), (commits.getD baseIndex default).Sha)

/-- The subprocess launched by `PrepareInteractiveRebaseCommand` (used only as
the payload of `GitError.commandFailed`). -/
def interactiveRebaseCmdStr (baseSha : String) : String :=
  "git rebase --interactive --autostash --keep-empty --rebase-merges " ++ baseSha

/-- `GitCommand.MoveCommitDown`: requires at least two commits after `index`;
builds an all-pick plan over `commits[0:index] ++ [commits[index+1], commits[index]]`
by the same prepending loop, and runs the interactive rebase onto
`commits[index+2].Sha`. -/
def MoveCommitDown (env : Env) (commits : List Commit) (index : Nat) :
    List Call × Except GitError Unit :=
  if commits.length ≤ index + 2 then ([], .error .noRoom)
  else
    let orderedCommits :=
      commits.take index ++ [commits.getD (index + 1) default, commits.getD index default]
    let todo := orderedCommits.foldl
      (fun todo commit => "pick " ++ commit.Sha ++ " " ++ commit.Name ++ "\n" ++ todo) ""
    let baseSha := (commits.getD (index + 2) default).Sha
    ([.runPrepared baseSha todo true],
      if env.runPreparedOk baseSha todo then .ok ()
      else .error (.commandFailed (interactiveRebaseCmdStr baseSha)))

/-- `GitCommand.BeginInteractiveRebaseForCommit`: validates the index, rejects
when GPG signing is configured, generates the `edit` todo, and only then runs
the interactive rebase subprocess.  The Go index check compares
`len(commits)-1 < commitIndex` over machine integers, modelled over `Int`. -/
def BeginInteractiveRebaseForCommit (env : Env) (commits : List Commit) (commitIndex : Nat) :
    List Call × Except GitError Unit :=
  if (commits.length : Int) - 1 < (commitIndex : Int) then ([], .error .indexOutsideRange)
  else if usingGpg env then ([], .error .disabledForGPG)
  else
    match GenerateGenericRebaseTodo commits commitIndex "edit" with
    | .error e => ([], .error e)
    | .ok (todo, sha) =>
      ([.runPrepared sha todo true],
        if env.runPreparedOk sha todo then .ok ()
        else .error (.commandFailed (interactiveRebaseCmdStr sha)))

/-- Modelled from the spec: `OSCommand.Quote` is not part of the analysed
file; the external-interface section says a path "may be double-quoted if it
requires escaping".  We wrap the argument in double quotes. -/
def Quote (s : String) : String := "\"" ++ s ++ "\""

/-- `GitCommand.StageFile`: runs `git add <quoted file>`. -/
def StageFile (env : Env) (fileName : String) : List Call × Except GitError Unit :=
  let cmd := "git add " ++ Quote fileName
  ([.run cmd], if env.runOk cmd then .ok () else .error (.commandFailed cmd))

/-- `GitCommand.AmendHead`: with GPG signing it prepares (but does not run) a
subprocess and returns it; otherwise it runs `git commit --amend --no-edit
--allow-empty`.  First component: the prepared subprocess, if any. -/
def AmendHead (env : Env) : Option String × List Call × Except GitError Unit :=
  let command := "git commit --amend --no-edit --allow-empty"
  if usingGpg env then (some command, [], .ok ())
  else (none, [.run command], if env.runOk command then .ok () else .error (.commandFailed command))

/-- `GitCommand.CheckoutFile`: runs `git checkout <commitSha> <fileName>`
(note: the source does not quote here). -/
def CheckoutFile (env : Env) (commitSha fileName : String) : List Call × Except GitError Unit :=
  let cmd := "git checkout " ++ commitSha ++ " " ++ fileName
  ([.run cmd], if env.runOk cmd then .ok () else .error (.commandFailed cmd))

/-- The tail of `DiscardOldFileChanges` after the working tree was adjusted:
amend the commit (rejecting an unexpected prepared subprocess first, as the
source checks `cmd != nil` before `err != nil`), then signal
`GenericMerge "rebase" "continue"`.  `calls` is the trace accumulated so far. -/
def discardOldFileAmendAndContinue (env : Env) (s : GitState) (calls : List Call) :
    GitState × List Call × List Cont × Except GitError Unit :=
  match AmendHead env with
  | (some _, amendCalls, _) => (s, calls ++ amendCalls, [], .error .unexpectedCmdPointer)
  | (none, amendCalls, .error e) => (s, calls ++ amendCalls, [], .error e)
  | (none, amendCalls, .ok _) =>
    let (s', gmCalls, invoked, r) := GenericMerge env "rebase" "continue" s
    (s', calls ++ amendCalls ++ gmCalls, invoked, r)

/-- `GitCommand.DiscardOldFileChanges`: begin the interactive rebase for the
commit, probe `git cat-file -e HEAD^:<file>` (the probe errors exactly when
the file is absent from the parent), then either remove-and-stage the file or
check its parent version out, amend, and signal continue.  Any failing step
returns its error with the calls made so far. -/
def DiscardOldFileChanges (env : Env) (s : GitState) (commits : List Commit)
    (commitIndex : Nat) (fileName : String) :
    GitState × List Call × List Cont × Except GitError Unit :=
  match BeginInteractiveRebaseForCommit env commits commitIndex with
  | (calls₀, .error e) => (s, calls₀, [], .error e)
  | (calls₀, .ok _) =>
    let probeCmd := "git cat-file -e HEAD^:" ++ fileName
    if !(env.runOk probeCmd) then
      if !(env.removeOk fileName) then
        (s, calls₀ ++ [.run probeCmd, .removePath fileName], [],
          .error (.commandFailed ("remove " ++ fileName)))
      else
        match StageFile env fileName with
        | (stageCalls, .error e) =>
          (s, calls₀ ++ [.run probeCmd, .removePath fileName] ++ stageCalls, [], .error e)
        | (stageCalls, .ok _) =>
          discardOldFileAmendAndContinue env s
            (calls₀ ++ [.run probeCmd, .removePath fileName] ++ stageCalls)
    else
      match CheckoutFile env "HEAD^" fileName with
      | (coCalls, .error e) => (s, calls₀ ++ [.run probeCmd] ++ coCalls, [], .error e)
      | (coCalls, .ok _) =>
        discardOldFileAmendAndContinue env s (calls₀ ++ [.run probeCmd] ++ coCalls)

/-- An environment in which every external call succeeds, no GPG signing is
configured, and the collaborator functions are trivial. -/
def envAllOk : Env :=
  { runOk := fun _ => true
    skipEditorOk := fun _ => true
    runPreparedOk := fun _ _ => true
    removeOk := fun _ => true
    gpgsignLocal := ""
    gpgsignGlobal := ""
    fileType := fun _ => "other"
    unquote := fun s => s }

/-- An environment in which every external call fails. -/
def envAllFail : Env :=
  { envAllOk with
    runOk := fun _ => false
    skipEditorOk := fun _ => false
    runPreparedOk := fun _ _ => false
    removeOk := fun _ => false }

/-- A `File` with the given name and display string and all other fields
trivial (used for concrete witnesses and counterexamples). -/
def mkFile (nm display : String) : File :=
  { Name := nm, DisplayString := display, HasStagedChanges := false
    HasUnstagedChanges := false, Tracked := false, Deleted := false
    HasMergeConflicts := false, HasInlineMergeConflicts := false
    ftype := "", ShortStatus := "" }

/-! ### Helper lemmas -/

theorem foldlAppend (t : List String) : ∀ (a : String),
    t.foldl (fun r s => r ++ s) a = a ++ t.foldl (fun r s => r ++ s) "" := by
  induction t with
  | nil => intro a; simp
  | cons x xs ih =>
    intro a
    simp only [List.foldl_cons]
    rw [ih (a ++ x), ih ("" ++ x)]
    simp [String.append_assoc]

theorem stringJoin_cons (a : String) (t : List String) :
    String.join (a :: t) = a ++ String.join t := by
  simp only [String.join, List.foldl_cons]
  rw [foldlAppend t]
  simp

theorem stringJoin_append (l₁ l₂ : List String) :
    String.join (l₁ ++ l₂) = String.join l₁ ++ String.join l₂ := by
  induction l₁ with
  | nil => simp [String.join]
  | cons a t ih =>
    simp only [String.join, List.foldl_cons, List.cons_append] at *
    rw [foldlAppend (t ++ l₂), foldlAppend t]
    simp [ih, String.append_assoc]

/-- The prepending fold used by the todo builders equals the join of the
reversed line list: the lines come out in reverse of the traversal order. -/
theorem foldl_prepend_eq_join {α : Type} (f : α → String) (l : List α) : ∀ (init : String),
    l.foldl (fun acc x => f x ++ acc) init = String.join ((l.map f).reverse) ++ init := by
  induction l with
  | nil => intro init; simp [String.join]
  | cons x t ih =>
    intro init
    simp only [List.foldl_cons, List.map_cons, List.reverse_cons]
    rw [ih (f x ++ init), stringJoin_append]
    simp [stringJoin_cons, String.join, String.append_assoc]

/-- The line emitted by `GenerateGenericRebaseTodo` for position `p.1` holding
commit `p.2`. -/
def todoLine (actionIndex : Nat) (action : String) (p : Nat × Commit) : String :=
  (if p.1 = actionIndex then action else "pick") ++ " " ++ p.2.Sha ++ " " ++ p.2.Name ++ "\n"

theorem todoFold_eq (actionIndex : Nat) (action : String) (slice : List Commit) :
    todoFold actionIndex action slice
      = String.join ((slice.enum.map (todoLine actionIndex action)).reverse) := by
  unfold todoFold todoLine
  rw [foldl_prepend_eq_join]
  simp

/-- The all-pick line emitted by `MoveCommitDown` and `CherryPickCommits`. -/
def pickLine (commit : Commit) : String :=
  "pick " ++ commit.Sha ++ " " ++ commit.Name ++ "\n"

/-! ### C1 and C10: the continue/abort/skip driver `GenericMerge` -/

/-- C1: for `GenericMerge`, a successful `rebase`/`continue` with a pending
continuation clears the pending continuation and invokes it exactly once
(the invoked-list is exactly `[f]` and the new state holds `none`); a
successful `abort` (for any command type) clears the pending continuation
without invoking anything; and once no continuation is pending, no call of
`GenericMerge` whatsoever invokes a continuation — so no continuation ever
fires after a successful abort. -/
theorem genericMerge_continue_invokes_abort_clears (env : Env) (s : GitState) :
    (∀ f : Cont, s.onSuccessfulContinue = some f →
      env.skipEditorOk "git rebase --continue" = true →
      GenericMerge env "rebase" "continue" s =
        ({ onSuccessfulContinue := none }, [Call.skipEditor "git rebase --continue"],
          [f], f.result)) ∧
    (∀ commandType, env.skipEditorOk ("git " ++ commandType ++ " --abort") = true →
      GenericMerge env commandType "abort" s =
        ({ onSuccessfulContinue := none },
          [Call.skipEditor ("git " ++ commandType ++ " --abort")], [], Except.ok ())) ∧
    (s.onSuccessfulContinue = none → ∀ commandType command,
      (GenericMerge env commandType command s).2.2.1 = []) := by
  refine ⟨?_, ?_, ?_⟩
  · intro f hf hok
    simp [GenericMerge, hf, hok]
  · intro commandType hok
    have hc : "git " ++ commandType ++ " --" ++ "abort" = "git " ++ commandType ++ " --abort" := by
      rw [String.append_assoc]
      rfl
    simp only [GenericMerge, hc, hok]
    rw [dif_neg (by simp)]
    simp
  · intro hnone commandType command
    simp only [GenericMerge, hnone]
    split
    · rfl
    · rw [dif_neg (by simp)]
      split <;> rfl

/-- Witness for C1 at concrete inputs: a successful continue with pending
continuation id 7 invokes it once and clears the state; a successful merge
abort clears without invoking. -/
theorem genericMerge_continue_invokes_abort_clears_witness :
    GenericMerge envAllOk "rebase" "continue" ⟨some ⟨7, Except.ok ()⟩⟩ =
      (⟨none⟩, [Call.skipEditor "git rebase --continue"], [⟨7, Except.ok ()⟩], Except.ok ()) ∧
    GenericMerge envAllOk "merge" "abort" ⟨some ⟨7, Except.ok ()⟩⟩ =
      (⟨none⟩, [Call.skipEditor "git merge --abort"], [], Except.ok ()) :=
  ⟨(genericMerge_continue_invokes_abort_clears envAllOk ⟨some ⟨7, Except.ok ()⟩⟩).1
      ⟨7, Except.ok ()⟩ rfl rfl,
    (genericMerge_continue_invokes_abort_clears envAllOk ⟨some ⟨7, Except.ok ()⟩⟩).2.1
      "merge" rfl⟩

/-- C10: when the external command run by `GenericMerge` fails, the error is
returned, no continuation is invoked, and the state — in particular the
pending continuation — is returned exactly as it was; this covers `abort` as
well, so only a successfully executed abort discards the continuation. -/
theorem genericMerge_error_leaves_state (env : Env) (commandType command : String)
    (s : GitState)
    (hfail : env.skipEditorOk ("git " ++ commandType ++ " --" ++ command) = false) :
    GenericMerge env commandType command s =
      (s, [Call.skipEditor ("git " ++ commandType ++ " --" ++ command)], [],
        Except.error (GitError.commandFailed ("git " ++ commandType ++ " --" ++ command))) := by
  simp [GenericMerge, hfail]

/-- Witness for C10 at concrete inputs: a failing `rebase --abort` leaves the
pending continuation in place. -/
theorem genericMerge_error_leaves_state_witness :
    GenericMerge envAllFail "rebase" "abort" ⟨some ⟨3, Except.ok ()⟩⟩ =
      (⟨some ⟨3, Except.ok ()⟩⟩, [Call.skipEditor "git rebase --abort"], [],
        Except.error (GitError.commandFailed "git rebase --abort")) :=
  genericMerge_error_leaves_state envAllFail "rebase" "abort" ⟨some ⟨3, Except.ok ()⟩⟩ rfl

/-! ### C4 and C5: `GenerateGenericRebaseTodo` -/

/-- C5: `GenerateGenericRebaseTodo` fails — with one of the two
insufficient-history errors, the spec's InsufficientHistory — if and only if
`len(commits) ≤ baseIndex`, where `baseIndex = actionIndex + 1`, incremented
once more for `squash`/`fixup`; in particular a squash with
`len(commits) = actionIndex + 2` fails. -/
theorem generateGenericRebaseTodo_error_iff (commits : List Commit) (actionIndex : Nat)
    (action : String) :
    ((∃ e, GenerateGenericRebaseTodo commits actionIndex action = .error e ∧
        (e = GitError.cannotRebaseOntoFirstCommit ∨
          e = GitError.cannotSquashOntoSecondCommit)) ↔
      commits.length ≤ actionIndex + 1 +
        (if action = "squash" || action = "fixup" then 1 else 0)) ∧
    (action = "squash" → commits.length = actionIndex + 2 →
      GenerateGenericRebaseTodo commits actionIndex action =
        .error GitError.cannotSquashOntoSecondCommit) := by
  constructor
  · unfold GenerateGenericRebaseTodo
    by_cases h1 : commits.length ≤ actionIndex + 1
    · simp only [if_pos h1]
      constructor
      · intro _
        split <;> omega
      · intro _
        exact ⟨_, rfl, Or.inl rfl⟩
    · simp only [if_neg h1]
      by_cases h2 : (action = "squash" || action = "fixup") = true
      · by_cases h3 : commits.length ≤ actionIndex + 1 + 1
        · simp [h2, h3]
        · simp [h2, h3]
      · simp only [Bool.not_eq_true] at h2
        simp [h2]
        omega
  · intro hsq hlen
    unfold GenerateGenericRebaseTodo
    rw [if_neg (by omega), if_pos (by simp [hsq]), if_pos (by omega)]

/-- Witness for C5 at concrete inputs: with three commits, squash at index 1
(so `len = idx + 2`) fails, and reword at index 1 succeeds (no error). -/
theorem generateGenericRebaseTodo_error_iff_witness :
    GenerateGenericRebaseTodo [⟨"s0", "n0"⟩, ⟨"s1", "n1"⟩, ⟨"s2", "n2"⟩] 1 "squash" =
      .error GitError.cannotSquashOntoSecondCommit ∧
    ¬ ∃ e, GenerateGenericRebaseTodo [⟨"s0", "n0"⟩, ⟨"s1", "n1"⟩, ⟨"s2", "n2"⟩] 1 "reword" =
        .error e ∧
        (e = GitError.cannotRebaseOntoFirstCommit ∨
          e = GitError.cannotSquashOntoSecondCommit) :=
  ⟨(generateGenericRebaseTodo_error_iff [⟨"s0", "n0"⟩, ⟨"s1", "n1"⟩, ⟨"s2", "n2"⟩] 1
      "squash").2 rfl rfl,
    fun h =>
      absurd ((generateGenericRebaseTodo_error_iff [⟨"s0", "n0"⟩, ⟨"s1", "n1"⟩, ⟨"s2", "n2"⟩] 1
        "reword").1.mp h) (by decide)⟩

/-- C4: every non-failing `GenerateGenericRebaseTodo` covers
`commits[0:baseIndex]`, gives every position verb `pick` except `actionIndex`
which gets the requested verb, emits the plan oldest-first (the reverse of
the newest-first slice order), and returns `commits[baseIndex].Sha` as the
base. -/
theorem generateGenericRebaseTodo_ok (commits : List Commit) (actionIndex : Nat)
    (action : String) (todo sha : String)
    (hok : GenerateGenericRebaseTodo commits actionIndex action = .ok (todo, sha)) :
    actionIndex + 1 + (if action = "squash" || action = "fixup" then 1 else 0) <
      commits.length ∧
    sha = (commits.getD
      (actionIndex + 1 + (if action = "squash" || action = "fixup" then 1 else 0))
      default).Sha ∧
    todo = String.join
      (((commits.take
          (actionIndex + 1 + (if action = "squash" || action = "fixup" then 1 else 0))).enum.map
        (todoLine actionIndex action)).reverse) := by
  unfold GenerateGenericRebaseTodo at hok
  by_cases h1 : commits.length ≤ actionIndex + 1
  · simp [h1] at hok
  · by_cases h2 : (action = "squash" || action = "fixup") = true
    · by_cases h3 : commits.length ≤ actionIndex + 1 + 1
      · simp [h1, h2, h3] at hok
      · simp only [if_neg h1, h2, if_true, if_pos, if_neg h3, Except.ok.injEq,
          Prod.mk.injEq] at hok
        obtain ⟨htodo, hsha⟩ := hok
        refine ⟨by simp [h2]; omega, by simp [h2, ← hsha], ?_⟩
        rw [← htodo, todoFold_eq]
        simp [h2]
    · simp only [Bool.not_eq_true] at h2
      simp only [if_neg h1, h2, Bool.false_eq_true, if_false, Except.ok.injEq,
        Prod.mk.injEq] at hok
      obtain ⟨htodo, hsha⟩ := hok
      refine ⟨by simp [h2]; omega, by simp [h2, ← hsha], ?_⟩
      rw [← htodo, todoFold_eq]
      simp [h2]

/-- Witness for C4 at concrete inputs: rewording the newest of two commits
produces the one-line plan `"reword s0 n0\n"` with base `s1`. -/
theorem generateGenericRebaseTodo_ok_witness :
    1 < ([⟨"s0", "n0"⟩, ⟨"s1", "n1"⟩] : List Commit).length ∧
    "s1" = (([⟨"s0", "n0"⟩, ⟨"s1", "n1"⟩] : List Commit).getD 1 default).Sha ∧
    "reword s0 n0\n" = String.join
      (((([⟨"s0", "n0"⟩, ⟨"s1", "n1"⟩] : List Commit).take 1).enum.map
        (todoLine 0 "reword")).reverse) := by
  have h := generateGenericRebaseTodo_ok [⟨"s0", "n0"⟩, ⟨"s1", "n1"⟩] 0 "reword"
    "reword s0 n0\n" "s1" (by decide)
  simpa using h

/-! ### C6: `MoveCommitDown` -/

/-- C6: `MoveCommitDown` fails with the no-room error exactly when
`len(commits) ≤ index + 2`; on success it launches one interactive rebase
whose oldest-first plan is all-`pick` and swaps `commits[index]` and
`commits[index+1]` (the plan reads `commits[index]`, then `commits[index+1]`,
then the remaining newer commits in their original order), onto base
`commits[index+2].Sha`. -/
theorem moveCommitDown_spec (env : Env) (commits : List Commit) (index : Nat) :
    ((MoveCommitDown env commits index).2 = .error GitError.noRoom ↔
      commits.length ≤ index + 2) ∧
    (index + 2 < commits.length →
      (MoveCommitDown env commits index).1 =
        [Call.runPrepared (commits.getD (index + 2) default).Sha
          (String.join (pickLine (commits.getD index default) ::
            pickLine (commits.getD (index + 1) default) ::
            ((commits.take index).map pickLine).reverse))
          true]) := by
  constructor
  · by_cases h : commits.length ≤ index + 2
    · simp [MoveCommitDown, h]
    · simp only [MoveCommitDown, if_neg h]
      constructor
      · intro habs
        split at habs <;> simp_all
      · intro habs
        exact absurd habs h
  · intro h
    have hn : ¬ commits.length ≤ index + 2 := by omega
    simp only [MoveCommitDown, if_neg hn]
    have hfold := foldl_prepend_eq_join pickLine
      (commits.take index ++ [commits.getD (index + 1) default, commits.getD index default]) ""
    simp only [pickLine] at hfold
    rw [hfold]
    simp [List.reverse_append, pickLine]

/-- Witness for C6 at concrete inputs: moving the top commit of three down
swaps the two top entries of the oldest-first plan. -/
theorem moveCommitDown_spec_witness :
    (MoveCommitDown envAllOk [⟨"s0", "n0"⟩, ⟨"s1", "n1"⟩, ⟨"s2", "n2"⟩] 0).1 =
      [Call.runPrepared "s2" "pick s0 n0\npick s1 n1\n" true] ∧
    ¬ (MoveCommitDown envAllOk [⟨"s0", "n0"⟩, ⟨"s1", "n1"⟩, ⟨"s2", "n2"⟩] 0).2 =
        .error GitError.noRoom := by
  constructor
  · rw [(moveCommitDown_spec envAllOk [⟨"s0", "n0"⟩, ⟨"s1", "n1"⟩, ⟨"s2", "n2"⟩] 0).2
      (by decide)]
    decide
  · intro habs
    have := (moveCommitDown_spec envAllOk [⟨"s0", "n0"⟩, ⟨"s1", "n1"⟩, ⟨"s2", "n2"⟩] 0).1.mp habs
    exact absurd this (by decide)

/-! ### C2 and C7: the status parser -/

/-- The 2-character change code `statusString[0:2]` of a parsed line. -/
def parsedChange (s : String) : String := ((s.toList.drop 0).take (2 - 0)).asString

/-- The staged-change code `change[0:1]` of a parsed line. -/
def parsedStaged (s : String) : String :=
  (((parsedChange s).toList.drop 0).take (1 - 0)).asString

/-- The unstaged-change code `statusString[1:2]` of a parsed line. -/
def parsedUnstaged (s : String) : String := ((s.toList.drop 1).take (2 - 1)).asString

/-- The raw path portion `statusString[3:]` of a parsed line. -/
def parsedRest (s : String) : String := ((s.toList.drop 3).take (s.length - 3)).asString

theorem goSlice_pos (s : String) (a b : Nat) (h₁ : a ≤ b) (h₂ : b ≤ s.length) :
    goSlice s a b = some ((s.toList.drop a).take (b - a)).asString := if_pos ⟨h₁, h₂⟩

theorem goSlice_neg (s : String) (a b : Nat) (h : ¬(a ≤ b ∧ b ≤ s.length)) :
    goSlice s a b = none := if_neg h

/-- The `File` record built by the parser loop body for a line of length at
least 3 (spelled out field by field). -/
def mkParsedFile (env : Env) (s : String) : File :=
  { Name := env.unquote (parsedRest s)
    DisplayString := s
    HasStagedChanges :=
      !(parsedStaged s = " " || parsedStaged s = "U" || parsedStaged s = "?")
    HasUnstagedChanges := parsedUnstaged s ≠ " "
    Tracked := !(parsedChange s = "??" || parsedChange s = "A " || parsedChange s = "AM")
    Deleted := parsedUnstaged s = "D" || parsedStaged s = "D"
    HasMergeConflicts :=
      parsedChange s = "UU" || parsedChange s = "AA" || parsedChange s = "DU"
    HasInlineMergeConflicts := parsedChange s = "UU" || parsedChange s = "AA"
    ftype := env.fileType (env.unquote (parsedRest s))
    ShortStatus := parsedChange s }

theorem length_asString (l : List Char) : (List.asString l).length = l.length := by
  simp [String.length, List.asString]

theorem parsedChange_length (s : String) (h : 2 ≤ s.length) :
    (parsedChange s).length = 2 := by
  have hs : s.toList.length = s.length := rfl
  simp [parsedChange, length_asString]
  omega

/-- On a line of length at least 3, all four slice expressions are in range
and the loop body produces exactly `mkParsedFile`. -/
theorem parseStatusLine_eq (env : Env) (s : String) (h : 3 ≤ s.length) :
    parseStatusLine env s = some (mkParsedFile env s) := by
  have h2 : 2 ≤ s.length := by omega
  have hc : (parsedChange s).length = 2 := parsedChange_length s h2
  have e1 : goSlice s 0 2 = some (parsedChange s) := by
    unfold parsedChange
    exact goSlice_pos s 0 2 (by omega) h2
  have e2 : goSlice (parsedChange s) 0 1 = some (parsedStaged s) := by
    unfold parsedStaged
    exact goSlice_pos (parsedChange s) 0 1 (by omega) (by rw [hc]; omega)
  have e3 : goSlice s 1 2 = some (parsedUnstaged s) := by
    unfold parsedUnstaged
    exact goSlice_pos s 1 2 (by omega) h2
  have e4 : goSliceFrom s 3 = some (parsedRest s) := by
    unfold parsedRest goSliceFrom
    exact goSlice_pos s 3 s.length h (by omega)
  simp only [parseStatusLine, e1, e2, e3, e4]
  rfl

/-- On a line shorter than 3 characters, one of the slice expressions is out
of range: the Go code panics, modelled as `none`. -/
theorem parseStatusLine_none (env : Env) (s : String) (h : s.length < 3) :
    parseStatusLine env s = none := by
  by_cases h2 : 2 ≤ s.length
  · have hc : (parsedChange s).length = 2 := parsedChange_length s h2
    have e1 : goSlice s 0 2 = some (parsedChange s) := by
      unfold parsedChange
      exact goSlice_pos s 0 2 (by omega) h2
    have e2 : goSlice (parsedChange s) 0 1 = some (parsedStaged s) := by
      unfold parsedStaged
      exact goSlice_pos (parsedChange s) 0 1 (by omega) (by rw [hc]; omega)
    have e3 : goSlice s 1 2 = some (parsedUnstaged s) := by
      unfold parsedUnstaged
      exact goSlice_pos s 1 2 (by omega) h2
    have e4 : goSliceFrom s 3 = none := by
      unfold goSliceFrom
      exact goSlice_neg s 3 s.length (by omega)
    simp only [parseStatusLine, e1, e2, e3, e4]
  · have e1 : goSlice s 0 2 = none := goSlice_neg s 0 2 (by omega)
    simp only [parseStatusLine, e1]

/-- Counterexample to C2 as stated: on the 2-character line `"MM"` the parser
does not signal any error value — the analysed function has no error channel
at all — but hits an out-of-range slice (`statusString[3:]`), i.e. a runtime
panic, modelled as `none`.  So a too-short line crashes the parse instead of
producing a MalformedStatusLine error. -/
theorem getStatusFiles_short_line_crashes :
    GetStatusFiles envAllOk ["MM"] = none := by
  have := parseStatusLine_none envAllOk "MM" (by decide)
  simp [GetStatusFiles, this]

/-- C2 (amended): the parser is pure (it is a function of its input only);
its result is defined (no panic) if and only if every line has length at
least 3, in which case it produces exactly one `File` record per line; a line
shorter than 3 characters makes it crash with an out-of-range slice — it
signals no MalformedStatusLine error, since the function has no error
channel. -/
theorem getStatusFiles_defined_iff (env : Env) (lines : List String) :
    ((GetStatusFiles env lines).isSome = true ↔ ∀ l ∈ lines, 3 ≤ l.length) ∧
    (∀ files, GetStatusFiles env lines = some files → files.length = lines.length) := by
  induction lines with
  | nil => simp [GetStatusFiles]
  | cons l rest ih =>
    by_cases h : 3 ≤ l.length
    · have heq := parseStatusLine_eq env l h
      constructor
      · simp only [GetStatusFiles, heq]
        cases hrest : GetStatusFiles env rest with
        | none =>
          simp only [hrest] at ih
          simp [h, ← ih.1, hrest]
        | some files =>
          simp only [hrest] at ih
          simp [h, ← ih.1, hrest]
      · intro files hfiles
        simp only [GetStatusFiles, heq] at hfiles
        cases hrest : GetStatusFiles env rest with
        | none => simp [hrest] at hfiles
        | some tfiles =>
          simp only [hrest] at hfiles ih
          obtain rfl : mkParsedFile env l :: tfiles = files := by
            simpa using hfiles
          simp [ih.2 tfiles rfl]
    · have hnone := parseStatusLine_none env l (by omega)
      constructor
      · simp [GetStatusFiles, hnone, h]
      · intro files hfiles
        simp [GetStatusFiles, hnone] at hfiles

/-- Witness for C2 (amended) at concrete inputs: both lines of
`["MM a.txt", "?? b"]` have length ≥ 3, the parse is defined and produces two
records; combined with `getStatusFiles_short_line_crashes` for the failing
side. -/
theorem getStatusFiles_defined_iff_witness :
    ((GetStatusFiles envAllOk ["MM a.txt", "?? b"]).isSome = true ↔
      ∀ l ∈ ["MM a.txt", "?? b"], 3 ≤ l.length) ∧
    (∀ files, GetStatusFiles envAllOk ["MM a.txt", "?? b"] = some files →
      files.length = (["MM a.txt", "?? b"] : List String).length) :=
  getStatusFiles_defined_iff envAllOk ["MM a.txt", "?? b"]

/-- C7: for every `File` the parser produces, the merge-conflict flag holds
exactly for the codes `"UU"`, `"AA"`, `"DU"`, the inline-merge-conflict flag
exactly for `"UU"`, `"AA"` (so not for `"DU"`), and therefore
`hasInlineMergeConflicts` implies `hasMergeConflicts`. -/
theorem parseStatusLine_conflict_flags (env : Env) (line : String) (f : File)
    (h : parseStatusLine env line = some f) :
    (f.HasMergeConflicts =
      (f.ShortStatus = "UU" || f.ShortStatus = "AA" || f.ShortStatus = "DU")) ∧
    (f.HasInlineMergeConflicts = (f.ShortStatus = "UU" || f.ShortStatus = "AA")) ∧
    (f.HasInlineMergeConflicts = true → f.HasMergeConflicts = true) := by
  have hlen : 3 ≤ line.length := by
    by_contra hn
    rw [parseStatusLine_none env line (by omega)] at h
    exact Option.noConfusion h
  rw [parseStatusLine_eq env line hlen] at h
  obtain rfl : mkParsedFile env line = f := by simpa using h
  refine ⟨rfl, rfl, ?_⟩
  intro hinline
  simp only [mkParsedFile, Bool.or_eq_true, decide_eq_true_eq] at hinline ⊢
  tauto

/-- Witness for C7 at a concrete input: the line `"UU f.txt"` parses to a
record with both conflict flags set, and the implication holds there. -/
theorem parseStatusLine_conflict_flags_witness :
    ((mkParsedFile envAllOk "UU f.txt").HasMergeConflicts =
      ((mkParsedFile envAllOk "UU f.txt").ShortStatus = "UU" ||
        (mkParsedFile envAllOk "UU f.txt").ShortStatus = "AA" ||
        (mkParsedFile envAllOk "UU f.txt").ShortStatus = "DU")) ∧
    ((mkParsedFile envAllOk "UU f.txt").HasInlineMergeConflicts =
      ((mkParsedFile envAllOk "UU f.txt").ShortStatus = "UU" ||
        (mkParsedFile envAllOk "UU f.txt").ShortStatus = "AA")) ∧
    ((mkParsedFile envAllOk "UU f.txt").HasInlineMergeConflicts = true →
      (mkParsedFile envAllOk "UU f.txt").HasMergeConflicts = true) :=
  parseStatusLine_conflict_flags envAllOk "UU f.txt" (mkParsedFile envAllOk "UU f.txt")
    (parseStatusLine_eq envAllOk "UU f.txt" (by decide))

/-! ### C3: `MergeStatusFiles` -/

theorem includesInt_eq_true (l : List Nat) (a : Nat) :
    includesInt l a = true ↔ a ∈ l := by
  induction l with
  | nil => simp [includesInt]
  | cons b rest ih =>
    by_cases hba : b = a
    · simp [includesInt, hba]
    · simp only [includesInt, hba, if_false, ih, List.mem_cons]
      constructor
      · exact fun h => Or.inr h
      · rintro (h | h)
        · exact absurd h.symm hba
        · exact h

theorem find?_enumFrom_spec (nm : String) (l : List File) : ∀ (k i : Nat) (f : File),
    (List.enumFrom k l).find? (fun p => p.2.Name = nm) = some (i, f) →
    f.Name = nm ∧ k ≤ i ∧ i - k < l.length ∧ l.getD (i - k) default = f := by
  induction l with
  | nil => intro k i f hf; simp [List.enumFrom] at hf
  | cons a t ih =>
    intro k i f hf
    have hcons : List.enumFrom k (a :: t) = (k, a) :: List.enumFrom (k + 1) t := rfl
    rw [hcons] at hf
    by_cases hpa : a.Name = nm
    · simp [List.find?_cons, hpa] at hf
      obtain ⟨rfl, rfl⟩ : k = i ∧ a = f := by simpa using hf
      refine ⟨hpa, Nat.le_refl k, by simp, by simp⟩
    · simp [List.find?_cons, hpa] at hf
      obtain ⟨h1, h2, h3, h4⟩ := ih (k + 1) i f hf
      refine ⟨h1, by omega, by simp; omega, ?_⟩
      rw [show i - k = (i - (k + 1)) + 1 by omega]
      simpa using h4

theorem find?_enum_spec (n : List File) (nm : String) (i : Nat) (f : File)
    (h : n.enum.find? (fun p => p.2.Name = nm) = some (i, f)) :
    f.Name = nm ∧ i < n.length ∧ n.getD i default = f := by
  have he : n.enum = List.enumFrom 0 n := rfl
  rw [he] at h
  obtain ⟨h1, _, h3, h4⟩ := find?_enumFrom_spec nm n 0 i f h
  exact ⟨h1, by simpa using h3, by simpa using h4⟩

theorem filterMap_enumFrom (l : List File) (q : Nat → Bool) : ∀ (k : Nat),
    (List.enumFrom k l).filterMap (fun p => if q p.1 then none else some p.2)
      = ((List.range l.length).filter (fun j => !(q (j + k)))).map
          (fun j => l.getD j default) := by
  induction l with
  | nil => intro k; simp [List.enumFrom]
  | cons a t ih =>
    intro k
    have hcons : List.enumFrom k (a :: t) = (k, a) :: List.enumFrom (k + 1) t := rfl
    rw [hcons]
    have hlen : (a :: t).length = t.length + 1 := rfl
    rw [hlen, List.range_succ_eq_map]
    have harg : ∀ j : Nat, j + 1 + k = j + (k + 1) := fun j => by omega
    by_cases hq : q k
    · rw [List.filterMap_cons]
      simp only [hq, if_true]
      rw [ih (k + 1)]
      simp only [List.filter_cons, Nat.zero_add, hq, Bool.not_true, List.filter_map,
        List.map_map, Function.comp_def, Nat.succ_eq_add_one, harg]
      simp [List.getD_cons_succ]
    · rw [List.filterMap_cons]
      simp only [hq, if_false]
      rw [ih (k + 1)]
      simp only [List.filter_cons, Nat.zero_add, hq, Bool.not_false, List.filter_map,
        List.map_map, Function.comp_def, Nat.succ_eq_add_one, harg]
      simp [List.getD_cons_succ]

theorem map_getD_range (l : List File) :
    (List.range l.length).map (fun j => l.getD j default) = l := by
  induction l with
  | nil => simp
  | cons a t ih =>
    have hlen : (a :: t).length = t.length + 1 := rfl
    rw [hlen, List.range_succ_eq_map]
    simp only [List.map_cons, List.map_map, Function.comp_def, Nat.succ_eq_add_one,
      List.getD_cons_succ, List.getD_cons_zero]
    rw [ih]

/-- C3 (amended): `MergeStatusFiles` returns `new` unchanged when `old` is
empty; and provided no two entries of `old` share a name, the output is a
permutation of `new` — exactly the entries present in `new`, no duplication
and no loss (each matched old position carries the new entry of that name,
the unmatched new entries are appended).  Without the no-duplicate-names
proviso the claim fails, see the counterexample. -/
theorem mergeStatusFiles_spec (old n : List File) :
    (old = [] → MergeStatusFiles old n = n) ∧
    ((old.map File.Name).Nodup → List.Perm (MergeStatusFiles old n) n) := by
  constructor
  · rintro rfl
    simp [MergeStatusFiles]
  · intro hnodup
    unfold MergeStatusFiles
    by_cases h0 : old.length = 0
    · simp [h0]
    · simp only [h0, if_false]
      set matched := old.filterMap
        (fun oldFile => n.enum.find? fun p => p.2.Name = oldFile.Name) with hmatched
      set idxs := matched.map Prod.fst with hidxs
      have hmem : ∀ p ∈ matched, p.1 < n.length ∧ n.getD p.1 default = p.2 := by
        intro p hp
        obtain ⟨i, f⟩ := p
        rw [hmatched, List.mem_filterMap] at hp
        obtain ⟨o, _, hfind⟩ := hp
        obtain ⟨_, hlt, hget⟩ := find?_enum_spec n o.Name i f hfind
        exact ⟨hlt, hget⟩
      have hlt : ∀ i ∈ idxs, i < n.length := by
        intro i hi
        rw [hidxs, List.mem_map] at hi
        obtain ⟨p, hp, rfl⟩ := hi
        exact (hmem p hp).1
      have hsnd : matched.map Prod.snd = idxs.map (fun i => n.getD i default) := by
        rw [hidxs, List.map_map]
        exact List.map_congr_left fun p hp => ((hmem p hp).2).symm
      have hnd : idxs.Nodup := by
        rw [hidxs, hmatched, List.map_filterMap]
        have hfun : (fun (o : File) =>
              (n.enum.find? fun p => p.2.Name = o.Name).map Prod.fst)
            = (fun nm => (n.enum.find? fun p => p.2.Name = nm).map Prod.fst) ∘
                File.Name := rfl
        rw [hfun, ← List.filterMap_map]
        refine hnodup.filterMap ?_
        intro nm nm' i hi hi'
        obtain ⟨p, hp, hpi⟩ := Option.map_eq_some'.mp hi
        obtain ⟨p', hp', hpi'⟩ := Option.map_eq_some'.mp hi'
        have hp2 : n.enum.find? (fun q => q.2.Name = nm) = some (p.1, p.2) := by
          rw [Prod.mk.eta]
          exact hp
        have hp2' : n.enum.find? (fun q => q.2.Name = nm') = some (p'.1, p'.2) := by
          rw [Prod.mk.eta]
          exact hp'
        obtain ⟨hn1, _, hg1⟩ := find?_enum_spec n nm p.1 p.2 hp2
        obtain ⟨hn2, _, hg2⟩ := find?_enum_spec n nm' p'.1 p'.2 hp2'
        rw [← hn1, ← hn2, ← hg1, ← hg2, hpi, hpi']
      have hphase2 : (n.enum.filterMap fun p =>
            if includesInt idxs p.1 then none else some p.2)
          = ((List.range n.length).filter (fun j => !(includesInt idxs j))).map
              (fun j => n.getD j default) := by
        have he : n.enum = List.enumFrom 0 n := rfl
        rw [he, filterMap_enumFrom n (fun i => includesInt idxs i) 0]
        simp
      rw [hsnd, hphase2, ← List.map_append]
      have hperm1 : List.Perm idxs
          ((List.range n.length).filter (fun j => includesInt idxs j)) := by
        refine (List.perm_ext_iff_of_nodup hnd
          ((List.nodup_range n.length).filter _)).2 ?_
        intro a
        rw [List.mem_filter, List.mem_range]
        constructor
        · intro ha
          exact ⟨hlt a ha, (includesInt_eq_true idxs a).2 ha⟩
        · rintro ⟨_, hb⟩
          exact (includesInt_eq_true idxs a).1 hb
      have hperm2 : List.Perm
          (idxs ++ (List.range n.length).filter (fun j => !(includesInt idxs j)))
          (List.range n.length) :=
        List.Perm.trans (hperm1.append_right _) (List.filter_append_perm _ _)
      have hmap := hperm2.map (fun j => n.getD j default)
      rw [List.map_append] at hmap
      rw [← List.map_append] at hmap
      rw [map_getD_range] at hmap
      exact hmap

/-- Counterexample to C3 as stated: with two old entries of the same name
`"a"`, both match the single new entry, which is emitted twice — the output
is not "exactly the entries present in new with no duplication": it is not a
permutation of `new`. -/
theorem mergeStatusFiles_duplicate_old_counterexample :
    MergeStatusFiles [mkFile "a" "old1", mkFile "a" "old2"] [mkFile "a" "new"] =
      [mkFile "a" "new", mkFile "a" "new"] ∧
    ¬ List.Perm
      (MergeStatusFiles [mkFile "a" "old1", mkFile "a" "old2"] [mkFile "a" "new"])
      [mkFile "a" "new"] := by
  constructor
  · decide
  · decide

/-- Witness for C3 (amended) at concrete inputs: the empty-old case returns
`new` unchanged, and with distinct old names the result is a permutation of
`new`. -/
theorem mergeStatusFiles_spec_witness :
    MergeStatusFiles [] [mkFile "a" "new"] = [mkFile "a" "new"] ∧
    List.Perm
      (MergeStatusFiles [mkFile "b" "old", mkFile "a" "old"]
        [mkFile "a" "new", mkFile "c" "new"])
      [mkFile "a" "new", mkFile "c" "new"] :=
  ⟨(mergeStatusFiles_spec [] [mkFile "a" "new"]).1 rfl,
    (mergeStatusFiles_spec [mkFile "b" "old", mkFile "a" "old"]
      [mkFile "a" "new", mkFile "c" "new"]).2 (by decide)⟩

/-! ### C9: `BeginInteractiveRebaseForCommit` validation order -/

/-- An environment identical to `envAllOk` but with `commit.gpgsign = true`
in the local git config. -/
def envGpg : Env := { envAllOk with gpgsignLocal := "true" }

theorem generateGenericRebaseTodo_ok_length (commits : List Commit) (actionIndex : Nat)
    (action : String) (pr : String × String)
    (h : GenerateGenericRebaseTodo commits actionIndex action = .ok pr) :
    actionIndex + 1 < commits.length := by
  unfold GenerateGenericRebaseTodo at h
  by_cases h1 : commits.length ≤ actionIndex + 1
  · simp [h1] at h
  · omega

/-- C9: with GPG signing configured (and a selectable index),
`BeginInteractiveRebaseForCommit` fails with the signing error — the spec's
UnsupportedWithSigning — making no external call; and every validation
failure (index range, signing mode, history length) returns with an empty
call trace, so no subprocess with side effects is ever launched by a failed
validation. -/
theorem beginInteractiveRebaseForCommit_validation (env : Env) (commits : List Commit)
    (commitIndex : Nat) :
    (usingGpg env = true → (commitIndex : Int) ≤ (commits.length : Int) - 1 →
      BeginInteractiveRebaseForCommit env commits commitIndex =
        ([], .error GitError.disabledForGPG)) ∧
    (∀ e, (BeginInteractiveRebaseForCommit env commits commitIndex).2 = .error e →
      (e = GitError.indexOutsideRange ∨ e = GitError.disabledForGPG ∨
        e = GitError.cannotRebaseOntoFirstCommit ∨
        e = GitError.cannotSquashOntoSecondCommit) →
      (BeginInteractiveRebaseForCommit env commits commitIndex).1 = []) := by
  constructor
  · intro hgpg hidx
    unfold BeginInteractiveRebaseForCommit
    rw [if_neg (by omega : ¬((commits.length : Int) - 1 < (commitIndex : Int))),
      if_pos hgpg]
  · intro e he hval
    unfold BeginInteractiveRebaseForCommit at he ⊢
    by_cases h1 : (commits.length : Int) - 1 < (commitIndex : Int)
    · simp [h1]
    · rw [if_neg h1] at he ⊢
      by_cases h2 : usingGpg env = true
      · simp [h2]
      · rw [if_neg h2] at he ⊢
        cases hg : GenerateGenericRebaseTodo commits commitIndex "edit" with
        | error e' => simp [hg]
        | ok pr =>
          obtain ⟨todo, sha⟩ := pr
          rw [hg] at he
          simp only at he
          by_cases hr : env.runPreparedOk sha todo = true
          · rw [if_pos hr] at he
            exact absurd he (by simp)
          · simp only [Bool.not_eq_true] at hr
            rw [if_neg (by simp [hr])] at he
            obtain rfl : GitError.commandFailed (interactiveRebaseCmdStr sha) = e := by
              simpa using he
            rcases hval with h | h | h | h <;> simp_all

/-- Witness for C9 at concrete inputs: with signing configured, beginning the
rewrite for the newest of two commits fails with the signing error and makes
no call; and the index-validation failure on an empty history also makes no
call. -/
theorem beginInteractiveRebaseForCommit_validation_witness :
    BeginInteractiveRebaseForCommit envGpg [⟨"s0", "n0"⟩, ⟨"s1", "n1"⟩] 0 =
      ([], .error GitError.disabledForGPG) ∧
    (BeginInteractiveRebaseForCommit envAllOk [] 0).1 = [] :=
  ⟨(beginInteractiveRebaseForCommit_validation envGpg [⟨"s0", "n0"⟩, ⟨"s1", "n1"⟩] 0).1
      (by decide) (by decide),
    (beginInteractiveRebaseForCommit_validation envAllOk [] 0).2
      GitError.indexOutsideRange (by decide) (Or.inl rfl)⟩

/-! ### C8: the compound `DiscardOldFileChanges` operation -/

theorem beginInteractiveRebase_ok (env : Env) (commits : List Commit) (commitIndex : Nat)
    (todo sha : String) (hgpg : usingGpg env = false)
    (hgen : GenerateGenericRebaseTodo commits commitIndex "edit" = .ok (todo, sha))
    (hrun : env.runPreparedOk sha todo = true) :
    BeginInteractiveRebaseForCommit env commits commitIndex =
      ([Call.runPrepared sha todo true], .ok ()) := by
  have hlt := generateGenericRebaseTodo_ok_length commits commitIndex "edit" (todo, sha) hgen
  unfold BeginInteractiveRebaseForCommit
  rw [if_neg (by omega : ¬((commits.length : Int) - 1 < (commitIndex : Int))),
    if_neg (by simp [hgpg]), hgen]
  simp [hrun]

/-- Whatever the branch taken, `GenericMerge` performs exactly one external
call, the skip-editor subprocess. -/
theorem genericMerge_calls (env : Env) (ct cmd : String) (s : GitState) :
    ∃ s' invoked r, GenericMerge env ct cmd s =
      (s', [Call.skipEditor ("git " ++ ct ++ " --" ++ cmd)], invoked, r) := by
  simp only [GenericMerge]
  split
  · exact ⟨_, _, _, rfl⟩
  · split
    · exact ⟨_, _, _, rfl⟩
    · split
      · exact ⟨_, _, _, rfl⟩
      · exact ⟨_, _, _, rfl⟩

/-- Two appends differ when the literal prefixes differ at position `k`. -/
theorem string_append_ne_append (a b f g : String) (k : Nat)
    (ha : k < a.data.length) (hb : k < b.data.length)
    (hne : a.data.getD k ' ' ≠ b.data.getD k ' ') : a ++ f ≠ b ++ g := by
  intro h
  have hdata : (a ++ f).data = (b ++ g).data := by rw [h]
  rw [String.data_append a f, String.data_append b g] at hdata
  apply hne
  rw [← List.getD_append a.data f.data ' ' k ha,
    ← List.getD_append b.data g.data ' ' k hb, hdata]

/-- An append differs from a literal when the prefixes differ at position `k`. -/
theorem string_append_ne_lit (a f c : String) (k : Nat)
    (ha : k < a.data.length)
    (hne : a.data.getD k ' ' ≠ c.data.getD k ' ') : a ++ f ≠ c := by
  intro h
  have hdata : a.data ++ f.data = c.data := by
    rw [← String.data_append a f, h]
  apply hne
  rw [← List.getD_append a.data f.data ' ' k ha, hdata]

/-- C8: once the rewrite is started (the begin step validated and launched),
`DiscardOldFileChanges` probes the parent; when the file is absent from the
parent it performs a working-tree removal and then exactly these subprocess
calls after the rewrite-start call, in order: the probe, the staging of the
removal (`git add`), the amend, and the continue signal — four subprocess
calls, with no checkout-from-parent anywhere in the trace; when the file is
present in the parent it instead checks out the parent's version of that
single file between the probe and the amend. -/
theorem discardOldFileChanges_call_sequence (env : Env) (s : GitState)
    (commits : List Commit) (commitIndex : Nat) (fileName : String) (todo sha : String)
    (hgpg : usingGpg env = false)
    (hgen : GenerateGenericRebaseTodo commits commitIndex "edit" = .ok (todo, sha))
    (hrun : env.runPreparedOk sha todo = true) :
    (env.runOk ("git cat-file -e HEAD^:" ++ fileName) = false →
      env.removeOk fileName = true →
      env.runOk ("git add " ++ Quote fileName) = true →
      env.runOk "git commit --amend --no-edit --allow-empty" = true →
      (DiscardOldFileChanges env s commits commitIndex fileName).2.1 =
        [Call.runPrepared sha todo true,
          Call.run ("git cat-file -e HEAD^:" ++ fileName),
          Call.removePath fileName,
          Call.run ("git add " ++ Quote fileName),
          Call.run "git commit --amend --no-edit --allow-empty",
          Call.skipEditor "git rebase --continue"] ∧
      ((DiscardOldFileChanges env s commits commitIndex fileName).2.1.filter
          Call.isSubprocess).drop 1 =
        [Call.run ("git cat-file -e HEAD^:" ++ fileName),
          Call.run ("git add " ++ Quote fileName),
          Call.run "git commit --amend --no-edit --allow-empty",
          Call.skipEditor "git rebase --continue"] ∧
      Call.run ("git checkout HEAD^ " ++ fileName) ∉
        (DiscardOldFileChanges env s commits commitIndex fileName).2.1) ∧
    (env.runOk ("git cat-file -e HEAD^:" ++ fileName) = true →
      env.runOk ("git checkout HEAD^ " ++ fileName) = true →
      env.runOk "git commit --amend --no-edit --allow-empty" = true →
      (DiscardOldFileChanges env s commits commitIndex fileName).2.1 =
        [Call.runPrepared sha todo true,
          Call.run ("git cat-file -e HEAD^:" ++ fileName),
          Call.run ("git checkout HEAD^ " ++ fileName),
          Call.run "git commit --amend --no-edit --allow-empty",
          Call.skipEditor "git rebase --continue"]) := by
  have hbeg := beginInteractiveRebase_ok env commits commitIndex todo sha hgpg hgen hrun
  obtain ⟨s', invoked, r, hgm⟩ := genericMerge_calls env "rebase" "continue" s
  have hgm' : GenericMerge env "rebase" "continue" s =
      (s', [Call.skipEditor "git rebase --continue"], invoked, r) := hgm
  constructor
  · intro hprobe hrm hadd hamend
    have htrace : (DiscardOldFileChanges env s commits commitIndex fileName).2.1 =
        [Call.runPrepared sha todo true,
          Call.run ("git cat-file -e HEAD^:" ++ fileName),
          Call.removePath fileName,
          Call.run ("git add " ++ Quote fileName),
          Call.run "git commit --amend --no-edit --allow-empty",
          Call.skipEditor "git rebase --continue"] := by
      simp [DiscardOldFileChanges, hbeg, hprobe, hrm, StageFile, hadd,
        discardOldFileAmendAndContinue, AmendHead, hgpg, hamend, hgm']
    refine ⟨htrace, ?_, ?_⟩
    · rw [htrace]
      simp [Call.isSubprocess]
    · rw [htrace]
      have h1 : "git checkout HEAD^ " ++ fileName ≠ "git cat-file -e HEAD^:" ++ fileName :=
        string_append_ne_append "git checkout HEAD^ " "git cat-file -e HEAD^:" fileName
          fileName 5 (by decide) (by decide) (by decide)
      have h2 : "git checkout HEAD^ " ++ fileName ≠ "git add " ++ Quote fileName :=
        string_append_ne_append "git checkout HEAD^ " "git add " fileName
          (Quote fileName) 4 (by decide) (by decide) (by decide)
      have h3 : "git checkout HEAD^ " ++ fileName ≠
          "git commit --amend --no-edit --allow-empty" :=
        string_append_ne_lit "git checkout HEAD^ " fileName
          "git commit --amend --no-edit --allow-empty" 5 (by decide) (by decide)
      simp [h1, h2, h3]
  · intro hprobe hco hamend
    simp [DiscardOldFileChanges, hbeg, hprobe, CheckoutFile, hco,
      discardOldFileAmendAndContinue, AmendHead, hgpg, hamend, hgm']

/-- An environment in which every external call succeeds except the
`cat-file` probe for `f.txt` in the parent commit (the file is absent
there). -/
def envAbsent : Env :=
  { envAllOk with runOk := fun c => !(c == "git cat-file -e HEAD^:f.txt") }

/-- Witness for C8 at concrete inputs: discarding `f.txt` (absent from the
parent) from the newest of two commits runs the begin-rebase call, the
probe, the removal, the staging, the amend, and the continue signal, in that
order. -/
theorem discardOldFileChanges_call_sequence_witness :
    (DiscardOldFileChanges envAbsent ⟨none⟩ [⟨"s0", "n0"⟩, ⟨"s1", "n1"⟩] 0 "f.txt").2.1 =
      [Call.runPrepared "s1" "edit s0 n0\n" true,
        Call.run "git cat-file -e HEAD^:f.txt",
        Call.removePath "f.txt",
        Call.run "git add \"f.txt\"",
        Call.run "git commit --amend --no-edit --allow-empty",
        Call.skipEditor "git rebase --continue"] := by
  have h := (discardOldFileChanges_call_sequence envAbsent ⟨none⟩
    [⟨"s0", "n0"⟩, ⟨"s1", "n1"⟩] 0 "f.txt" "edit s0 n0\n" "s1"
    (by decide) (by decide) rfl).1 (by decide) rfl (by decide) (by decide)
  rw [h.1]
  decide

end LazygitGit
